import Mathlib

/-!
Verification of the fiber request dispatcher's gRPC response adapters and of
its fallback-dispatch contract.

Part 1 embeds the two gRPC `Response` implementations found in the sources
(`src/grpc/response.go`, whose `Message` field is a protobuf message, and the
second `grpc` response file, whose `Message` field is raw bytes), together
with the fragment of `google.golang.org/grpc/metadata` (`metadata.MD`) and
`strings.Join` that they use.

Part 2 models the Dispatcher / Fallback Combiner, whose code is not among the
source files (only its integration test is), from the specification's words.
-/

set_option maxRecDepth 4096

/-! ### Part 1: the gRPC metadata fragment used by the adapters -/

/-- `metadata.MD` from `google.golang.org/grpc/metadata`: a mapping from keys
to lists of values (`map[string][]string`), modelled as an association list in
which the first binding of a key is its current value. -/
abbrev MD := List (String × List String)

/-- `metadata.MD.Get`: the key is lowercased, and the mapped slice is returned
(`nil`, i.e. `[]`, when the key is absent). -/
def MD.get (md : MD) (k : String) : List String :=
  match md.find? (fun p => p.1 == k.toLower) with
  | some p => p.2
  | none => []

/-- `metadata.MD.Set`: a no-op when no values are given, otherwise the
lowercased key is bound to exactly the given values, replacing any previous
binding. -/
def MD.set (md : MD) (k : String) (vals : List String) : MD :=
  if vals.isEmpty then md
  else (k.toLower, vals) :: md.filter (fun p => p.1 != k.toLower)

/-- Go's `strings.Join(elems, sep)`. -/
def stringsJoin (elems : List String) (sep : String) : String :=
  match elems with
  | [] => ""
  | x :: xs => xs.foldl (fun acc e => acc ++ sep ++ e) x

/-- `status.Status` from `google.golang.org/grpc/status`: only the code (a
`codes.Code`, an unsigned integer) and the message are relevant here. -/
structure Status where
  code : Nat
  message : String
deriving DecidableEq, Repr

/-- `codes.OK` from `google.golang.org/grpc/codes`. -/
def codesOK : Nat := 0

/-! ### Part 1: the two gRPC Response implementations -/

/-- `src/grpc/response.go`: `type Response struct { Metadata metadata.MD;
Message proto.Message; Status status.Status }`.  The protobuf message type is
abstracted by the parameter `Msg`. -/
structure GrpcMsg.Response (Msg : Type) where
  Metadata : MD
  Message : Msg
  Status : Status
deriving DecidableEq, Repr

namespace GrpcMsg

/-- `func (r *Response) StatusCode() int { return int(r.Status.Code()) }` -/
def Response.StatusCode (r : Response Msg) : Nat :=
  r.Status.code

/-- `func (r *Response) IsSuccess() bool { return r.StatusCode() == int(codes.OK) }` -/
def Response.IsSuccess (r : Response Msg) : Bool :=
  r.StatusCode == codesOK

/-- `func (r *Response) Payload() interface\x7b\x7d { return r.Message }` -/
def Response.Payload (r : Response Msg) : Msg :=
  r.Message

/-- `func (r *Response) BackendName() string { return strings.Join(r.Metadata.Get("backend"), ",") }` -/
def Response.BackendName (r : Response Msg) : String :=
  stringsJoin (r.Metadata.get "backend") ","

/-- `func (r *Response) WithBackendName(backendName string) fiber.Response {
r.Metadata.Set("backend", backendName); return r }` — the receiver's metadata
is updated in place and the same response is returned. -/
def Response.WithBackendName (r : Response Msg) (backendName : String) : Response Msg :=
  { r with Metadata := r.Metadata.set "backend" [backendName] }

end GrpcMsg

/-- The second `grpc` response file: `type Response struct { Metadata
metadata.MD; Message []byte; Status status.Status }`, bytes modelled as a list
of naturals below 256. -/
structure GrpcRaw.Response where
  Metadata : MD
  Message : List Nat
  Status : Status
deriving DecidableEq, Repr

namespace GrpcRaw

/-- `func (r *Response) StatusCode() int { return int(r.Status.Code()) }` -/
def Response.StatusCode (r : Response) : Nat :=
  r.Status.code

/-- `func (r *Response) IsSuccess() bool { return r.StatusCode() == int(codes.OK) }` -/
def Response.IsSuccess (r : Response) : Bool :=
  r.StatusCode == codesOK

/-- `func (r *Response) Payload() []byte { return r.Message }` -/
def Response.Payload (r : Response) : List Nat :=
  r.Message

/-- `func (r *Response) BackendName() string { return strings.Join(r.Metadata.Get("backend"), ",") }` -/
def Response.BackendName (r : Response) : String :=
  stringsJoin (r.Metadata.get "backend") ","

/-- `func (r *Response) WithBackendName(backendName string) fiber.Response {
r.Metadata.Set("backend", backendName); return r }` -/
def Response.WithBackendName (r : Response) (backendName : String) : Response :=
  { r with Metadata := r.Metadata.set "backend" [backendName] }

end GrpcRaw

/-! ### Metadata lemmas -/

theorem MD.get_set_same (md : MD) (k : String) (vals : List String)
    (h : vals ≠ []) : (md.set k vals).get k = vals := by
  unfold MD.set MD.get
  simp [List.isEmpty_iff, h, List.find?]

theorem MD.find?_filter_ne (md : MD) (k k' : String) (hk : k' ≠ k) :
    (md.filter (fun p => p.1 != k)).find? (fun p => p.1 == k') =
      md.find? (fun p => p.1 == k') := by
  induction md with
  | nil => rfl
  | cons p md ih =>
    by_cases hq : p.1 = k
    · have h1 : (p.1 != k) = false := by simp [hq]
      have h2 : (p.1 == k') = false := by simp [hq, Ne.symm hk]
      simp [List.filter_cons, List.find?_cons, h1, h2, ih]
    · have h1 : (p.1 != k) = true := by simp [hq]
      by_cases hp : p.1 = k'
      · simp [List.filter_cons, List.find?_cons, h1, hp, hk]
      · have h2 : (p.1 == k') = false := by simp [hp]
        simp [List.filter_cons, List.find?_cons, h1, h2, ih]

theorem MD.get_set_ne (md : MD) (k k' : String) (vals : List String)
    (h : k'.toLower ≠ k.toLower) : (md.set k vals).get k' = md.get k' := by
  unfold MD.set MD.get
  by_cases he : vals.isEmpty
  · simp [he]
  · simp only [he, if_false, List.find?]
    have hne : (k.toLower == k'.toLower) = false := by
      simp [Ne.symm h]
    simp [hne, MD.find?_filter_ne md k.toLower k'.toLower h]

theorem stringsJoin_singleton (s sep : String) : stringsJoin [s] sep = s := rfl

/-! ### Part 2: the Dispatcher / Fallback Combiner, modelled from the spec

The routing engine itself (`fiber.EagerRouter`, its Strategy and the fallback
Combiner) is exercised by the integration test but its code is not among the
source files, so it is modelled from the specification's words. -/

/-- Modelled from the spec: the protocol tag of a request (`HTTP`, `RPC`). -/
inductive Protocol where
  | HTTP
  | GRPC
deriving DecidableEq, Repr

/-- Modelled from the spec: a Route is a named binding of a protocol adapter,
an endpoint and a per-call timeout.  Only the unique name takes part in
combination; the adapter, endpoint and timeout govern how the per-route task
produces its Outcome, which this model abstracts as the arrival stream. -/
structure Route where
  name : String
deriving DecidableEq, Repr

/-- Modelled from the spec: an Outcome is the tagged result of one route
invocation — either a Response (possibly with a non-success status), a
timeout signal, or a transport/protocol error. -/
inductive Outcome (R : Type) where
  | response (r : R)
  | timeout
  | transportError
deriving DecidableEq, Repr

/-- Modelled from the spec: what the Combiner can observe next while it waits:
the arrival of one route's Outcome (tagged with the route name), or the
cancellation of the caller's context. -/
inductive Event (R : Type) where
  | arrival (name : String) (o : Outcome R)
  | cancel
deriving DecidableEq, Repr

/-- Modelled from the spec: the final decision written to the DispatchResult —
a successful Response, the protocol-tagged "service unavailable" error after
exhaustion, or the distinct cancellation outcome. -/
inductive DispatchOutcome (R : Type) where
  | success (r : R)
  | unavailable (proto : Protocol)
  | cancelled
deriving DecidableEq, Repr

/-- Modelled from the spec: the part of the Request/Response capability
contract the Dispatcher and Combiner use — the success flag and the
backend-name tagging mutator applied after a call completes. -/
structure ResponseOps (R : Type) where
  isSuccess : R → Bool
  withBackendName : R → String → R

/-- Modelled from the spec: a failure or timeout Outcome; a reply with a
non-success status is treated as a failed Outcome for fallback purposes. -/
def Outcome.failed (ops : ResponseOps R) : Outcome R → Bool
  | .response r => !(ops.isSuccess r)
  | .timeout => true
  | .transportError => true

/-- Modelled from the spec: the Combiner's per-call outcome buffer, keyed by
route name; later arrivals are prepended. -/
abbrev Buffer (R : Type) := List (String × Outcome R)

/-- The buffered Outcome of a route name, if it has arrived. -/
def lookupBuf (buf : Buffer R) (nm : String) : Option (Outcome R) :=
  (buf.find? (fun p => p.1 == nm)).map Prod.snd

/-- Modelled from the spec: one deliberation pass of the Fallback Combiner.
It inspects candidates in rank order: a buffered successful Response resolves
immediately (the Dispatcher tags it with the producing route's name), a
buffered failure or timeout advances the cursor, all candidates exhausted
resolves to the protocol-tagged unavailability error, and a candidate whose
Outcome has not arrived makes the Combiner block on that specific candidate
(returning the still-unresolved suffix of the order). -/
def scanKnown (ops : ResponseOps R) (proto : Protocol) :
    List Route → Buffer R → (DispatchOutcome R × Buffer R) ⊕ List Route
  | [], buf => Sum.inl (.unavailable proto, buf)
  | rt :: rest, buf =>
    match lookupBuf buf rt.name with
    | some (.response r) =>
      if ops.isSuccess r then Sum.inl (.success (ops.withBackendName r rt.name), buf)
      else scanKnown ops proto rest buf
    | some .timeout => scanKnown ops proto rest buf
    | some .transportError => scanKnown ops proto rest buf
    | none => Sum.inr (rt :: rest)

/-- Modelled from the spec: the Combiner's loop.  While blocked on a pending
candidate it consumes the next Event: an arriving Outcome is buffered by route
name, and cancellation of the caller's context resolves to the cancellation
outcome.  `none` means the dispatch is still pending after all supplied
events. -/
def resolve (ops : ResponseOps R) (proto : Protocol) :
    List Route → Buffer R → List (Event R) → Option (DispatchOutcome R × Buffer R)
  | order, buf, [] =>
    match scanKnown ops proto order buf with
    | Sum.inl res => some res
    | Sum.inr _ => none
  | order, buf, e :: evs2 =>
    match scanKnown ops proto order buf with
    | Sum.inl res => some res
    | Sum.inr order2 =>
      match e with
      | Event.cancel => some (.cancelled, buf)
      | Event.arrival nm o => resolve ops proto order2 ((nm, o) :: buf) evs2

/-- Modelled from the spec: `Dispatch` — the single final decision written to
the DispatchResult (the buffer is internal to the call). -/
def dispatch (ops : ResponseOps R) (proto : Protocol) (order : List Route)
    (evs : List (Event R)) : Option (DispatchOutcome R) :=
  (resolve ops proto order [] evs).map Prod.fst

/-- Modelled from the spec: the sequence of values written to the
DispatchResult channel before it is closed. -/
def dispatchEmissions (ops : ResponseOps R) (proto : Protocol)
    (order : List Route) (evs : List (Event R)) : List (DispatchOutcome R) :=
  match resolve ops proto order [] evs with
  | some res => [res.1]
  | none => []

/-- The rank-order scan of a complete per-route outcome assignment: the
arrival-order-free description of what the Combiner decides. -/
def resolveOffline (ops : ResponseOps R) (proto : Protocol) :
    List Route → (String → Outcome R) → DispatchOutcome R
  | [], _ => .unavailable proto
  | rt :: rest, f =>
    match f rt.name with
    | .response r =>
      if ops.isSuccess r then .success (ops.withBackendName r rt.name)
      else resolveOffline ops proto rest f
    | .timeout => resolveOffline ops proto rest f
    | .transportError => resolveOffline ops proto rest f

/-- One arrival event per candidate, in candidate order, carrying the
assignment's outcome for that route. -/
def enumerate (order : List Route) (f : String → Outcome R) : List (Event R) :=
  order.map (fun rt => Event.arrival rt.name (f rt.name))

/-- The names carried by the arrival events of an event list. -/
def arrivalNames (evs : List (Event R)) : List String :=
  evs.filterMap (fun e =>
    match e with
    | Event.arrival nm _ => some nm
    | Event.cancel => none)

/-- Modelled from the spec: the candidates whose Outcome has not arrived —
resolving the DispatchResult signals cancellation to exactly these
still-running tasks. -/
def inFlight (order : List Route) (buf : Buffer R) : List Route :=
  order.filter (fun rt => (lookupBuf buf rt.name).isNone)

/-- The prefix of the candidate order the Combiner examines before it
resolves under the assignment `f`: the failed candidates before the first
success, and the first success itself when there is one. -/
def scannedPrefix (ops : ResponseOps R) (f : String → Outcome R) :
    List Route → List Route
  | [] => []
  | rt :: rest =>
    if (f rt.name).failed ops then rt :: scannedPrefix ops f rest else [rt]

/-- Every buffered outcome agrees with the assignment `f`. -/
def bufConsistent (f : String → Outcome R) (buf : Buffer R) : Prop :=
  ∀ nm o, lookupBuf buf nm = some o → o = f nm

/-! ### Combiner lemmas -/

theorem lookupBuf_cons (buf : Buffer R) (nm nm' : String) (o : Outcome R) :
    lookupBuf ((nm, o) :: buf) nm' =
      if nm = nm' then some o else lookupBuf buf nm' := by
  unfold lookupBuf
  by_cases h : nm = nm'
  · simp [List.find?_cons, h]
  · simp [List.find?_cons, h]

theorem lookupBuf_cons_isSome (buf : Buffer R) (nm nm' : String) (o : Outcome R)
    (h : (lookupBuf buf nm').isSome) : (lookupBuf ((nm, o) :: buf) nm').isSome := by
  rw [lookupBuf_cons]
  by_cases hn : nm = nm' <;> simp [hn, h]


theorem scanKnown_nil (ops : ResponseOps R) (proto : Protocol) (buf : Buffer R) :
    scanKnown ops proto [] buf = Sum.inl (.unavailable proto, buf) := rfl

theorem scanKnown_cons_none (ops : ResponseOps R) (proto : Protocol)
    (rt : Route) (rest : List Route) (buf : Buffer R)
    (h : lookupBuf buf rt.name = none) :
    scanKnown ops proto (rt :: rest) buf = Sum.inr (rt :: rest) := by
  conv_lhs => rw [scanKnown, h]

theorem scanKnown_cons_success (ops : ResponseOps R) (proto : Protocol)
    (rt : Route) (rest : List Route) (buf : Buffer R) (r : R)
    (h : lookupBuf buf rt.name = some (.response r)) (hs : ops.isSuccess r = true) :
    scanKnown ops proto (rt :: rest) buf =
      Sum.inl (.success (ops.withBackendName r rt.name), buf) := by
  conv_lhs => rw [scanKnown, h]
  simp [hs]

theorem scanKnown_cons_failed (ops : ResponseOps R) (proto : Protocol)
    (rt : Route) (rest : List Route) (buf : Buffer R) (o : Outcome R)
    (h : lookupBuf buf rt.name = some o) (hf : o.failed ops = true) :
    scanKnown ops proto (rt :: rest) buf = scanKnown ops proto rest buf := by
  conv_lhs => rw [scanKnown, h]
  cases o with
  | response r =>
    simp only [Outcome.failed, Bool.not_eq_true'] at hf
    simp [hf]
  | timeout => rfl
  | transportError => rfl

theorem resolveOffline_nil (ops : ResponseOps R) (proto : Protocol)
    (f : String → Outcome R) :
    resolveOffline ops proto [] f = .unavailable proto := rfl

theorem resolveOffline_cons_success (ops : ResponseOps R) (proto : Protocol)
    (f : String → Outcome R) (rt : Route) (rest : List Route) (r : R)
    (h : f rt.name = .response r) (hs : ops.isSuccess r = true) :
    resolveOffline ops proto (rt :: rest) f =
      .success (ops.withBackendName r rt.name) := by
  conv_lhs => rw [resolveOffline, h]
  simp [hs]

theorem resolveOffline_cons_failed (ops : ResponseOps R) (proto : Protocol)
    (f : String → Outcome R) (rt : Route) (rest : List Route)
    (h : (f rt.name).failed ops = true) :
    resolveOffline ops proto (rt :: rest) f = resolveOffline ops proto rest f := by
  conv_lhs => rw [resolveOffline]
  cases ho : f rt.name with
  | response r =>
    rw [ho] at h
    simp only [Outcome.failed, Bool.not_eq_true'] at h
    simp [h]
  | timeout => rfl
  | transportError => rfl

theorem scannedPrefix_nil (ops : ResponseOps R) (f : String → Outcome R) :
    scannedPrefix ops f [] = [] := rfl

theorem scannedPrefix_cons_failed (ops : ResponseOps R) (f : String → Outcome R)
    (rt : Route) (rest : List Route) (h : (f rt.name).failed ops = true) :
    scannedPrefix ops f (rt :: rest) = rt :: scannedPrefix ops f rest := by
  conv_lhs => rw [scannedPrefix]
  simp [h]

theorem scannedPrefix_cons_success (ops : ResponseOps R) (f : String → Outcome R)
    (rt : Route) (rest : List Route) (h : (f rt.name).failed ops = false) :
    scannedPrefix ops f (rt :: rest) = [rt] := by
  conv_lhs => rw [scannedPrefix]
  simp [h]

theorem resolve_inl (ops : ResponseOps R) (proto : Protocol)
    (order : List Route) (buf : Buffer R) (evs : List (Event R))
    (res : DispatchOutcome R × Buffer R)
    (h : scanKnown ops proto order buf = Sum.inl res) :
    resolve ops proto order buf evs = some res := by
  cases evs with
  | nil =>
    conv_lhs => rw [resolve, h]
  | cons e evs2 =>
    conv_lhs => rw [resolve, h]

theorem resolve_inr_nil (ops : ResponseOps R) (proto : Protocol)
    (order : List Route) (buf : Buffer R) (order2 : List Route)
    (h : scanKnown ops proto order buf = Sum.inr order2) :
    resolve ops proto order buf [] = none := by
  conv_lhs => rw [resolve, h]

theorem resolve_inr_cancel (ops : ResponseOps R) (proto : Protocol)
    (order : List Route) (buf : Buffer R) (order2 : List Route)
    (evs : List (Event R))
    (h : scanKnown ops proto order buf = Sum.inr order2) :
    resolve ops proto order buf (Event.cancel :: evs) = some (.cancelled, buf) := by
  conv_lhs => rw [resolve, h]

theorem resolve_inr_arrival (ops : ResponseOps R) (proto : Protocol)
    (order : List Route) (buf : Buffer R) (order2 : List Route)
    (nm : String) (o : Outcome R) (evs : List (Event R))
    (h : scanKnown ops proto order buf = Sum.inr order2) :
    resolve ops proto order buf (Event.arrival nm o :: evs) =
      resolve ops proto order2 ((nm, o) :: buf) evs := by
  conv_lhs => rw [resolve, h]

theorem failed_of_not_success (ops : ResponseOps R) (r : R)
    (hs : ¬ops.isSuccess r = true) :
    (Outcome.response r).failed ops = true := by
  simp [Outcome.failed]
  exact Bool.not_eq_true _ ▸ hs

theorem scanKnown_inl_spec (ops : ResponseOps R) (proto : Protocol)
    (f : String → Outcome R) :
    ∀ (order : List Route) (buf : Buffer R), bufConsistent f buf →
    ∀ res buf', scanKnown ops proto order buf = Sum.inl (res, buf') →
    buf' = buf ∧ res = resolveOffline ops proto order f ∧
    ∀ rt ∈ scannedPrefix ops f order, (lookupBuf buf rt.name).isSome := by
  intro order
  induction order with
  | nil =>
    intro buf _hbuf res buf' h
    rw [scanKnown_nil] at h
    injection h with h
    injection h with h1 h2
    subst h2
    refine ⟨rfl, h1.symm, ?_⟩
    intro rt hrt
    rw [scannedPrefix_nil] at hrt
    cases hrt
  | cons rt rest ih =>
    intro buf hbuf res buf' h
    cases hlook : lookupBuf buf rt.name with
    | none =>
      rw [scanKnown_cons_none ops proto rt rest buf hlook] at h
      cases h
    | some o =>
      have hfo : o = f rt.name := hbuf rt.name o hlook
      cases o with
      | response r =>
        by_cases hs : ops.isSuccess r = true
        · rw [scanKnown_cons_success ops proto rt rest buf r hlook hs] at h
          injection h with h
          injection h with h1 h2
          subst h2
          refine ⟨rfl, ?_, ?_⟩
          · rw [← h1, resolveOffline_cons_success ops proto f rt rest r hfo.symm hs]
          · have hfail : (f rt.name).failed ops = false := by
              rw [← hfo]
              simp [Outcome.failed, hs]
            rw [scannedPrefix_cons_success ops f rt rest hfail]
            intro rt' hrt'
            have : rt' = rt := by
              rcases List.mem_cons.mp hrt' with h' | h'
              · exact h'
              · cases h'
            subst this
            simp [hlook]
        · have hfail : (f rt.name).failed ops = true := by
            rw [← hfo]
            exact failed_of_not_success ops r hs
          have hstep := scanKnown_cons_failed ops proto rt rest buf _ hlook
            (hfo ▸ hfail)
          rw [hstep] at h
          obtain ⟨h1, h2, h3⟩ := ih buf hbuf res buf' h
          refine ⟨h1, ?_, ?_⟩
          · rw [h2, resolveOffline_cons_failed ops proto f rt rest hfail]
          · rw [scannedPrefix_cons_failed ops f rt rest hfail]
            intro rt' hrt'
            rcases List.mem_cons.mp hrt' with h' | h'
            · subst h'
              simp [hlook]
            · exact h3 rt' h'
      | timeout =>
        have hfail : (f rt.name).failed ops = true := by
          rw [← hfo]
          rfl
        have hstep := scanKnown_cons_failed ops proto rt rest buf _ hlook rfl
        rw [hstep] at h
        obtain ⟨h1, h2, h3⟩ := ih buf hbuf res buf' h
        refine ⟨h1, ?_, ?_⟩
        · rw [h2, resolveOffline_cons_failed ops proto f rt rest hfail]
        · rw [scannedPrefix_cons_failed ops f rt rest hfail]
          intro rt' hrt'
          rcases List.mem_cons.mp hrt' with h' | h'
          · subst h'
            simp [hlook]
          · exact h3 rt' h'
      | transportError =>
        have hfail : (f rt.name).failed ops = true := by
          rw [← hfo]
          rfl
        have hstep := scanKnown_cons_failed ops proto rt rest buf _ hlook rfl
        rw [hstep] at h
        obtain ⟨h1, h2, h3⟩ := ih buf hbuf res buf' h
        refine ⟨h1, ?_, ?_⟩
        · rw [h2, resolveOffline_cons_failed ops proto f rt rest hfail]
        · rw [scannedPrefix_cons_failed ops f rt rest hfail]
          intro rt' hrt'
          rcases List.mem_cons.mp hrt' with h' | h'
          · subst h'
            simp [hlook]
          · exact h3 rt' h'

theorem scanKnown_inr_spec (ops : ResponseOps R) (proto : Protocol) :
    ∀ (order : List Route) (buf : Buffer R) (order2 : List Route),
    scanKnown ops proto order buf = Sum.inr order2 →
    ∃ pre, order = pre ++ order2 ∧
      (∀ rt ∈ pre, ∃ o, lookupBuf buf rt.name = some o ∧ o.failed ops = true) ∧
      ∃ rt0 rest2, order2 = rt0 :: rest2 ∧ lookupBuf buf rt0.name = none := by
  intro order
  induction order with
  | nil =>
    intro buf order2 h
    rw [scanKnown_nil] at h
    cases h
  | cons rt rest ih =>
    intro buf order2 h
    cases hlook : lookupBuf buf rt.name with
    | none =>
      rw [scanKnown_cons_none ops proto rt rest buf hlook] at h
      injection h with h
      refine ⟨[], by rw [← h, List.nil_append], by simp, rt, rest, h.symm, hlook⟩
    | some o =>
      cases ho : o.failed ops with
      | true =>
        rw [scanKnown_cons_failed ops proto rt rest buf o hlook ho] at h
        obtain ⟨pre, heq, hpre, hhead⟩ := ih buf order2 h
        refine ⟨rt :: pre, by rw [List.cons_append, heq], ?_, hhead⟩
        intro rt' hrt'
        rcases List.mem_cons.mp hrt' with h' | h'
        · subst h'
          exact ⟨o, hlook, ho⟩
        · exact hpre rt' h'
      | false =>
        cases o with
        | response r =>
          have hs : ops.isSuccess r = true := by
            simp [Outcome.failed] at ho
            exact ho
          rw [scanKnown_cons_success ops proto rt rest buf r hlook hs] at h
          cases h
        | timeout => cases ho
        | transportError => cases ho

theorem scanKnown_success_spec (ops : ResponseOps R) (proto : Protocol) :
    ∀ (order : List Route) (buf : Buffer R) (resp : R) (buf' : Buffer R),
    scanKnown ops proto order buf = Sum.inl (.success resp, buf') →
    ∃ rt r0, rt ∈ order ∧ ops.isSuccess r0 = true ∧
      resp = ops.withBackendName r0 rt.name := by
  intro order
  induction order with
  | nil =>
    intro buf resp buf' h
    rw [scanKnown_nil] at h
    injection h with h
    injection h with h1 h2
    cases h1
  | cons rt rest ih =>
    intro buf resp buf' h
    cases hlook : lookupBuf buf rt.name with
    | none =>
      rw [scanKnown_cons_none ops proto rt rest buf hlook] at h
      cases h
    | some o =>
      cases ho : o.failed ops with
      | true =>
        rw [scanKnown_cons_failed ops proto rt rest buf o hlook ho] at h
        obtain ⟨rt', r0, hmem, hs, heq⟩ := ih buf resp buf' h
        exact ⟨rt', r0, List.mem_cons_of_mem rt hmem, hs, heq⟩
      | false =>
        cases o with
        | response r =>
          have hs : ops.isSuccess r = true := by
            simp [Outcome.failed] at ho
            exact ho
          rw [scanKnown_cons_success ops proto rt rest buf r hlook hs] at h
          injection h with h
          injection h with h1 h2
          injection h1 with h1
          exact ⟨rt, r, List.mem_cons_self rt rest, hs, h1.symm⟩
        | timeout => cases ho
        | transportError => cases ho

theorem resolveOffline_append_failed (ops : ResponseOps R) (proto : Protocol)
    (f : String → Outcome R) :
    ∀ (pre tl : List Route), (∀ rt ∈ pre, (f rt.name).failed ops = true) →
    resolveOffline ops proto (pre ++ tl) f = resolveOffline ops proto tl f := by
  intro pre
  induction pre with
  | nil => intro tl _; rfl
  | cons rt pre ih =>
    intro tl h
    rw [List.cons_append,
      resolveOffline_cons_failed ops proto f rt (pre ++ tl)
        (h rt (List.mem_cons_self rt pre))]
    exact ih tl fun rt' h' => h rt' (List.mem_cons_of_mem rt h')

theorem scannedPrefix_append_failed (ops : ResponseOps R)
    (f : String → Outcome R) :
    ∀ (pre tl : List Route), (∀ rt ∈ pre, (f rt.name).failed ops = true) →
    scannedPrefix ops f (pre ++ tl) = pre ++ scannedPrefix ops f tl := by
  intro pre
  induction pre with
  | nil => intro tl _; rfl
  | cons rt pre ih =>
    intro tl h
    rw [List.cons_append,
      scannedPrefix_cons_failed ops f rt (pre ++ tl)
        (h rt (List.mem_cons_self rt pre)),
      ih tl fun rt' h' => h rt' (List.mem_cons_of_mem rt h'), List.cons_append]

theorem resolveOffline_all_failed (ops : ResponseOps R) (proto : Protocol)
    (f : String → Outcome R) (order : List Route)
    (h : ∀ rt ∈ order, (f rt.name).failed ops = true) :
    resolveOffline ops proto order f = .unavailable proto := by
  have := resolveOffline_append_failed ops proto f order [] h
  rw [List.append_nil] at this
  rw [this, resolveOffline_nil]

theorem resolveOffline_first_success (ops : ResponseOps R) (proto : Protocol)
    (f : String → Outcome R) (pre post : List Route) (rtk : Route) (r : R)
    (hpre : ∀ rt ∈ pre, (f rt.name).failed ops = true)
    (hk : f rtk.name = .response r) (hs : ops.isSuccess r = true) :
    resolveOffline ops proto (pre ++ rtk :: post) f =
      .success (ops.withBackendName r rtk.name) := by
  rw [resolveOffline_append_failed ops proto f pre (rtk :: post) hpre,
    resolveOffline_cons_success ops proto f rtk post r hk hs]

theorem arrivalNames_cons_arrival (nm : String) (o : Outcome R)
    (evs : List (Event R)) :
    arrivalNames (Event.arrival nm o :: evs) = nm :: arrivalNames evs := rfl

theorem mem_arrivalNames_of_mem (evs : List (Event R)) (nm : String)
    (o : Outcome R) (h : Event.arrival nm o ∈ evs) : nm ∈ arrivalNames evs := by
  unfold arrivalNames
  rw [List.mem_filterMap]
  exact ⟨Event.arrival nm o, h, rfl⟩

theorem resolve_eq_offline (ops : ResponseOps R) (proto : Protocol)
    (f : String → Outcome R) :
    ∀ (evs : List (Event R)) (order : List Route) (buf : Buffer R),
    bufConsistent f buf →
    (∀ e ∈ evs, ∃ nm, e = Event.arrival nm (f nm)) →
    (∀ rt ∈ order, lookupBuf buf rt.name = none → rt.name ∈ arrivalNames evs) →
    ∃ buf2, resolve ops proto order buf evs =
        some (resolveOffline ops proto order f, buf2) ∧
      bufConsistent f buf2 ∧
      (∀ nm, (lookupBuf buf nm).isSome → (lookupBuf buf2 nm).isSome) ∧
      ∀ rt ∈ scannedPrefix ops f order, (lookupBuf buf2 rt.name).isSome := by
  intro evs
  induction evs with
  | nil =>
    intro order buf hbuf _hevs hcov
    cases hscan : scanKnown ops proto order buf with
    | inl res =>
      obtain ⟨res1, buf'⟩ := res
      obtain ⟨h1, h2, h3⟩ := scanKnown_inl_spec ops proto f order buf hbuf res1 buf' hscan
      subst h1
      refine ⟨buf', ?_, hbuf, fun nm h => h, h3⟩
      rw [resolve_inl ops proto order buf' [] (res1, buf') hscan, h2]
    | inr order2 =>
      exfalso
      obtain ⟨pre, heq, _hpre, rt0, rest2, horder2, hnone⟩ :=
        scanKnown_inr_spec ops proto order buf order2 hscan
      have hmem : rt0 ∈ order := by
        rw [heq, horder2]
        exact List.mem_append_right pre (List.mem_cons_self rt0 rest2)
      have := hcov rt0 hmem hnone
      cases this
  | cons e evs ih =>
    intro order buf hbuf hevs hcov
    cases hscan : scanKnown ops proto order buf with
    | inl res =>
      obtain ⟨res1, buf'⟩ := res
      obtain ⟨h1, h2, h3⟩ := scanKnown_inl_spec ops proto f order buf hbuf res1 buf' hscan
      subst h1
      refine ⟨buf', ?_, hbuf, fun nm h => h, h3⟩
      rw [resolve_inl ops proto order buf' (e :: evs) (res1, buf') hscan, h2]
    | inr order2 =>
      obtain ⟨nm, he⟩ := hevs e (List.mem_cons_self e evs)
      subst he
      obtain ⟨pre, heq, hpre, rt0, rest2, horder2, hnone⟩ :=
        scanKnown_inr_spec ops proto order buf order2 hscan
      have hpre' : ∀ rt ∈ pre, (f rt.name).failed ops = true := by
        intro rt hrt
        obtain ⟨o, hl, hf⟩ := hpre rt hrt
        rw [← hbuf rt.name o hl]
        exact hf
      have hbuf' : bufConsistent f ((nm, f nm) :: buf) := by
        intro nm' o' hl
        rw [lookupBuf_cons] at hl
        by_cases hn : nm = nm'
        · rw [if_pos hn] at hl
          injection hl with hl
          rw [← hl, hn]
        · rw [if_neg hn] at hl
          exact hbuf nm' o' hl
      have hevs' : ∀ e2 ∈ evs, ∃ nm2, e2 = Event.arrival nm2 (f nm2) :=
        fun e2 h2 => hevs e2 (List.mem_cons_of_mem _ h2)
      have hcov' : ∀ rt ∈ order2, lookupBuf ((nm, f nm) :: buf) rt.name = none →
          rt.name ∈ arrivalNames evs := by
        intro rt hrt hl
        rw [lookupBuf_cons] at hl
        by_cases hn : nm = rt.name
        · rw [if_pos hn] at hl
          cases hl
        · rw [if_neg hn] at hl
          have hrtord : rt ∈ order := by
            rw [heq]
            exact List.mem_append_right pre hrt
          have hmem := hcov rt hrtord hl
          rw [arrivalNames_cons_arrival] at hmem
          rcases List.mem_cons.mp hmem with h' | h'
          · exact absurd h'.symm hn
          · exact h'
      obtain ⟨buf2, hres, hbuf2, hmono, hpres⟩ :=
        ih order2 ((nm, f nm) :: buf) hbuf' hevs' hcov'
      refine ⟨buf2, ?_, hbuf2, ?_, ?_⟩
      · rw [resolve_inr_arrival ops proto order buf order2 nm (f nm) evs hscan, hres,
          heq, resolveOffline_append_failed ops proto f pre order2 hpre']
      · intro nm' h
        exact hmono nm' (lookupBuf_cons_isSome buf nm nm' (f nm) h)
      · intro rt hrt
        rw [heq, scannedPrefix_append_failed ops f pre order2 hpre'] at hrt
        rcases List.mem_append.mp hrt with h' | h'
        · obtain ⟨o, hl, _⟩ := hpre rt h'
          have hsome : (lookupBuf buf rt.name).isSome := by
            rw [hl]
            rfl
          exact hmono rt.name (lookupBuf_cons_isSome buf nm rt.name (f nm) hsome)
        · exact hpres rt h'

theorem resolve_append (ops : ResponseOps R) (proto : Protocol) :
    ∀ (evs : List (Event R)) (order : List Route) (buf : Buffer R)
      (res : DispatchOutcome R × Buffer R) (extra : List (Event R)),
    resolve ops proto order buf evs = some res →
    resolve ops proto order buf (evs ++ extra) = some res := by
  intro evs
  induction evs with
  | nil =>
    intro order buf res extra h
    cases hscan : scanKnown ops proto order buf with
    | inl res2 =>
      rw [resolve_inl ops proto order buf [] res2 hscan] at h
      injection h with h
      subst h
      rw [List.nil_append]
      exact resolve_inl ops proto order buf extra res2 hscan
    | inr order2 =>
      rw [resolve_inr_nil ops proto order buf order2 hscan] at h
      cases h
  | cons e evs ih =>
    intro order buf res extra h
    cases hscan : scanKnown ops proto order buf with
    | inl res2 =>
      rw [resolve_inl ops proto order buf (e :: evs) res2 hscan] at h
      injection h with h
      subst h
      exact resolve_inl ops proto order buf (e :: evs ++ extra) res2 hscan
    | inr order2 =>
      cases e with
      | cancel =>
        rw [resolve_inr_cancel ops proto order buf order2 evs hscan] at h
        rw [List.cons_append,
          resolve_inr_cancel ops proto order buf order2 (evs ++ extra) hscan]
        exact h
      | arrival nm o =>
        rw [resolve_inr_arrival ops proto order buf order2 nm o evs hscan] at h
        rw [List.cons_append,
          resolve_inr_arrival ops proto order buf order2 nm o (evs ++ extra) hscan]
        exact ih order2 ((nm, o) :: buf) res extra h

theorem resolve_pending_cancel (ops : ResponseOps R) (proto : Protocol) :
    ∀ (pre : List (Event R)) (order : List Route) (buf : Buffer R)
      (rest : List (Event R)),
    resolve ops proto order buf pre = none →
    ∃ buf2, resolve ops proto order buf (pre ++ Event.cancel :: rest) =
      some (.cancelled, buf2) := by
  intro pre
  induction pre with
  | nil =>
    intro order buf rest h
    cases hscan : scanKnown ops proto order buf with
    | inl res2 =>
      rw [resolve_inl ops proto order buf [] res2 hscan] at h
      cases h
    | inr order2 =>
      rw [List.nil_append]
      exact ⟨buf, resolve_inr_cancel ops proto order buf order2 rest hscan⟩
  | cons e pre ih =>
    intro order buf rest h
    cases hscan : scanKnown ops proto order buf with
    | inl res2 =>
      rw [resolve_inl ops proto order buf (e :: pre) res2 hscan] at h
      cases h
    | inr order2 =>
      cases e with
      | cancel =>
        rw [resolve_inr_cancel ops proto order buf order2 pre hscan] at h
        cases h
      | arrival nm o =>
        rw [resolve_inr_arrival ops proto order buf order2 nm o pre hscan] at h
        obtain ⟨buf2, hb⟩ := ih order2 ((nm, o) :: buf) rest h
        rw [List.cons_append,
          resolve_inr_arrival ops proto order buf order2 nm o
            (pre ++ Event.cancel :: rest) hscan]
        exact ⟨buf2, hb⟩

theorem resolve_success_form (ops : ResponseOps R) (proto : Protocol) :
    ∀ (evs : List (Event R)) (order : List Route) (buf : Buffer R)
      (resp : R) (buf2 : Buffer R),
    resolve ops proto order buf evs = some (.success resp, buf2) →
    ∃ rt r0, rt ∈ order ∧ ops.isSuccess r0 = true ∧
      resp = ops.withBackendName r0 rt.name := by
  intro evs
  induction evs with
  | nil =>
    intro order buf resp buf2 h
    cases hscan : scanKnown ops proto order buf with
    | inl res2 =>
      rw [resolve_inl ops proto order buf [] res2 hscan] at h
      injection h with h
      subst h
      exact scanKnown_success_spec ops proto order buf resp buf2 hscan
    | inr order2 =>
      rw [resolve_inr_nil ops proto order buf order2 hscan] at h
      cases h
  | cons e evs ih =>
    intro order buf resp buf2 h
    cases hscan : scanKnown ops proto order buf with
    | inl res2 =>
      rw [resolve_inl ops proto order buf (e :: evs) res2 hscan] at h
      injection h with h
      subst h
      exact scanKnown_success_spec ops proto order buf resp buf2 hscan
    | inr order2 =>
      obtain ⟨pre, heq, _hpre, _⟩ := scanKnown_inr_spec ops proto order buf order2 hscan
      cases e with
      | cancel =>
        rw [resolve_inr_cancel ops proto order buf order2 evs hscan] at h
        injection h with h
        injection h with h1 h2
        cases h1
      | arrival nm o =>
        rw [resolve_inr_arrival ops proto order buf order2 nm o evs hscan] at h
        obtain ⟨rt, r0, hmem, hs, heq2⟩ := ih order2 ((nm, o) :: buf) resp buf2 h
        refine ⟨rt, r0, ?_, hs, heq2⟩
        rw [heq]
        exact List.mem_append_right pre hmem

theorem perm_events_consistent (order : List Route) (f : String → Outcome R)
    (evs : List (Event R)) (hperm : evs.Perm (enumerate order f)) :
    ∀ e ∈ evs, ∃ nm, e = Event.arrival nm (f nm) := by
  intro e he
  have hmem : e ∈ enumerate order f := hperm.mem_iff.mp he
  unfold enumerate at hmem
  rw [List.mem_map] at hmem
  obtain ⟨rt, _, heq⟩ := hmem
  exact ⟨rt.name, heq.symm⟩

theorem perm_events_cover (order : List Route) (f : String → Outcome R)
    (evs : List (Event R)) (hperm : evs.Perm (enumerate order f)) :
    ∀ rt ∈ order, rt.name ∈ arrivalNames evs := by
  intro rt hrt
  have hmem : Event.arrival rt.name (f rt.name) ∈ enumerate order f := by
    unfold enumerate
    rw [List.mem_map]
    exact ⟨rt, hrt, rfl⟩
  exact mem_arrivalNames_of_mem evs rt.name (f rt.name) (hperm.mem_iff.mpr hmem)

theorem bufConsistent_nil (f : String → Outcome R) :
    bufConsistent f ([] : Buffer R) := by
  intro nm o h
  simp [lookupBuf, List.find?] at h

theorem resolve_perm (ops : ResponseOps R) (proto : Protocol)
    (f : String → Outcome R) (order : List Route) (evs : List (Event R))
    (hperm : evs.Perm (enumerate order f)) :
    ∃ buf2, resolve ops proto order [] evs =
        some (resolveOffline ops proto order f, buf2) ∧
      bufConsistent f buf2 ∧
      ∀ rt ∈ scannedPrefix ops f order, (lookupBuf buf2 rt.name).isSome := by
  obtain ⟨buf2, h1, h2, _h3, h4⟩ := resolve_eq_offline ops proto f evs order []
    (bufConsistent_nil f)
    (perm_events_consistent order f evs hperm)
    (fun rt hrt _ => perm_events_cover order f evs hperm rt hrt)
  exact ⟨buf2, h1, h2, h4⟩

/-! ### Concrete instances used to evaluate the theorems -/

/-- The Request/Response capability operations of the protobuf-message gRPC
adapter (`src/grpc/response.go`). -/
def grpcMsgOps (Msg : Type) : ResponseOps (GrpcMsg.Response Msg) where
  isSuccess := GrpcMsg.Response.IsSuccess
  withBackendName := GrpcMsg.Response.WithBackendName

/-- A minimal response instance for evaluating the combiner model: the
response is its own success flag and tagging is the identity. -/
def boolOps : ResponseOps Bool where
  isSuccess := fun r => r
  withBackendName := fun r _ => r

/-- The first route of the integration test configuration. -/
def route1 : Route := ⟨"route1"⟩

/-- The second route of the integration test configuration. -/
def route2 : Route := ⟨"route2"⟩

/-- The third route of the integration test configuration (the one that is
set up to exceed its timeout). -/
def route3 : Route := ⟨"route3"⟩

/-- The outcome assignment of the timeout scenarios of the integration test,
over `Bool` responses: route3 times out, route1 and route2 succeed. -/
def scenarioOutcomes : String → Outcome Bool :=
  fun nm => if nm = "route3" then Outcome.timeout else Outcome.response true

/-- `*status.New(codes.OK, "Success")` of the integration test. -/
def okStatus : Status := ⟨0, "Success"⟩

/-- A concrete successful protobuf-message response with empty metadata. -/
def msgResponse1 : GrpcMsg.Response Unit := ⟨[], (), okStatus⟩

/-- A concrete successful raw-bytes response with the same metadata and
status as `msgResponse1`. -/
def rawResponse1 : GrpcRaw.Response := ⟨[], [], okStatus⟩

/-! ### The claims -/

/-- C1: For every Candidate Order, if the route ranked k is the first
(lowest rank) to produce a successful Outcome — every route ranked before it
fails or times out — then the result delivered by Dispatch equals that
route's Response (tagged by the Dispatcher with the producing route's name),
regardless of the order in which the Outcomes for the other ranks arrive
(`evs` is an arbitrary permutation of the per-route outcome arrivals). -/
theorem C1_dispatch_result_is_first_ranked_success (ops : ResponseOps R)
    (proto : Protocol) (pre post : List Route) (rtk : Route)
    (f : String → Outcome R) (r : R) (evs : List (Event R))
    (_hnodup : ((pre ++ rtk :: post).map Route.name).Nodup)
    (hperm : evs.Perm (enumerate (pre ++ rtk :: post) f))
    (hpre : ∀ rt ∈ pre, (f rt.name).failed ops = true)
    (hk : f rtk.name = Outcome.response r) (hs : ops.isSuccess r = true) :
    dispatch ops proto (pre ++ rtk :: post) evs =
      some (DispatchOutcome.success (ops.withBackendName r rtk.name)) := by
  obtain ⟨buf2, h1, _, _⟩ := resolve_perm ops proto f (pre ++ rtk :: post) evs hperm
  unfold dispatch
  rw [h1, resolveOffline_first_success ops proto f pre post rtk r hpre hk hs]
  rfl

theorem C1_witness :
    dispatch boolOps Protocol.GRPC [route3, route1, route2]
      [Event.arrival "route2" (Outcome.response true),
        Event.arrival "route1" (Outcome.response true),
        Event.arrival "route3" Outcome.timeout] =
      some (DispatchOutcome.success (boolOps.withBackendName true route1.name)) :=
  C1_dispatch_result_is_first_ranked_success boolOps Protocol.GRPC [route3]
    [route2] route1 scenarioOutcomes true
    [Event.arrival "route2" (Outcome.response true),
      Event.arrival "route1" (Outcome.response true),
      Event.arrival "route3" Outcome.timeout]
    (by decide) (by decide) (by decide) (by decide) (by decide)

/-- C2: If every candidate in the Candidate Order fails or times out,
Dispatch resolves to the terminal service-unavailable error tagged with the
request's protocol, and never to a successful Response. -/
theorem C2_exhaustion_yields_unavailable (ops : ResponseOps R)
    (proto : Protocol) (order : List Route) (f : String → Outcome R)
    (evs : List (Event R))
    (hperm : evs.Perm (enumerate order f))
    (hfail : ∀ rt ∈ order, (f rt.name).failed ops = true) :
    dispatch ops proto order evs = some (DispatchOutcome.unavailable proto) ∧
    ∀ resp : R, dispatch ops proto order evs ≠
      some (DispatchOutcome.success resp) := by
  obtain ⟨buf2, h1, _, _⟩ := resolve_perm ops proto f order evs hperm
  have hd : dispatch ops proto order evs =
      some (DispatchOutcome.unavailable proto) := by
    unfold dispatch
    rw [h1, resolveOffline_all_failed ops proto f order hfail]
    rfl
  refine ⟨hd, ?_⟩
  intro resp hcontra
  rw [hd] at hcontra
  injection hcontra with hcontra
  cases hcontra

theorem C2_witness :
    dispatch boolOps Protocol.GRPC [route3]
        [Event.arrival "route3" Outcome.timeout] =
      some (DispatchOutcome.unavailable Protocol.GRPC) ∧
    ∀ resp : Bool, dispatch boolOps Protocol.GRPC [route3]
        [Event.arrival "route3" Outcome.timeout] ≠
      some (DispatchOutcome.success resp) :=
  C2_exhaustion_yields_unavailable boolOps Protocol.GRPC [route3]
    scenarioOutcomes [Event.arrival "route3" Outcome.timeout]
    (by decide) (by decide)

/-- C3: Every successful Response a dispatch exposes carries a backend tag
equal to the name of a candidate Route (the one that produced it), non-empty
whenever the candidate routes' names are non-empty; and in the gRPC
implementation, for every Response r and non-empty name s,
`r.WithBackendName s` followed by `BackendName` yields exactly s,
irrespective of any backend metadata previously present. -/
theorem C3_backend_tag_invariant {Msg : Type} (proto : Protocol)
    (order : List Route) (evs : List (Event (GrpcMsg.Response Msg)))
    (resp : GrpcMsg.Response Msg) (buf2 : Buffer (GrpcMsg.Response Msg))
    (hnames : ∀ rt ∈ order, rt.name ≠ "")
    (hres : resolve (grpcMsgOps Msg) proto order [] evs =
      some (DispatchOutcome.success resp, buf2)) :
    (∃ rt, rt ∈ order ∧ resp.BackendName = rt.name ∧ resp.BackendName ≠ "") ∧
    ∀ (r : GrpcMsg.Response Msg) (s : String), s ≠ "" →
      (r.WithBackendName s).BackendName = s := by
  have hround : ∀ (r : GrpcMsg.Response Msg) (s : String),
      (r.WithBackendName s).BackendName = s := by
    intro r s
    have h1 : (r.WithBackendName s).Metadata = r.Metadata.set "backend" [s] := rfl
    unfold GrpcMsg.Response.BackendName
    rw [h1, MD.get_set_same r.Metadata "backend" [s] (by simp)]
    exact stringsJoin_singleton s ","
  refine ⟨?_, fun r s _ => hround r s⟩
  obtain ⟨rt, r0, hmem, _hs0, heq⟩ :=
    resolve_success_form (grpcMsgOps Msg) proto evs order [] resp buf2 hres
  have htag : resp.BackendName = rt.name := by
    rw [heq]
    exact hround r0 rt.name
  refine ⟨rt, hmem, htag, ?_⟩
  rw [htag]
  exact hnames rt hmem

theorem C3_witness :
    ((∃ rt, rt ∈ [route1] ∧
        (GrpcMsg.Response.WithBackendName msgResponse1 "route1").BackendName =
          rt.name ∧
        (GrpcMsg.Response.WithBackendName msgResponse1 "route1").BackendName ≠
          "") ∧
      ∀ (r : GrpcMsg.Response Unit) (s : String), s ≠ "" →
        (r.WithBackendName s).BackendName = s) :=
  C3_backend_tag_invariant Protocol.GRPC [route1]
    [Event.arrival "route1" (Outcome.response msgResponse1)]
    (GrpcMsg.Response.WithBackendName msgResponse1 "route1")
    [("route1", Outcome.response msgResponse1)]
    (by decide)
    (by
      have h0 : lookupBuf ([] : Buffer (GrpcMsg.Response Unit)) route1.name =
          none := rfl
      have h1 := scanKnown_cons_none (grpcMsgOps Unit) Protocol.GRPC route1 []
        [] h0
      have h2 : lookupBuf [("route1", Outcome.response msgResponse1)]
          route1.name = some (Outcome.response msgResponse1) := rfl
      have h3 : (grpcMsgOps Unit).isSuccess msgResponse1 = true := rfl
      have h4 := scanKnown_cons_success (grpcMsgOps Unit) Protocol.GRPC route1
        [] [("route1", Outcome.response msgResponse1)] msgResponse1 h2 h3
      rw [resolve_inr_arrival (grpcMsgOps Unit) Protocol.GRPC [route1] []
        [route1] "route1" (Outcome.response msgResponse1) [] h1]
      rw [resolve_inl (grpcMsgOps Unit) Protocol.GRPC [route1]
        [("route1", Outcome.response msgResponse1)] [] _ h4]
      rfl)

/-- C4: The Combiner never resolves the dispatch to a lower-priority
candidate's success while a higher-priority candidate's Outcome is still
pending: when every route ranked before the first success fails or times
out, the dispatch resolves to that success and, at resolution, the Outcome
of every higher-ranked candidate has already arrived and sits in the
Combiner's buffer (so for order [R3,R2,R1] with R3 timing out, R2's
Response is delivered only after R3's timeout outcome has been consumed). -/
theorem C4_no_preemption_of_pending_higher_rank (ops : ResponseOps R)
    (proto : Protocol) (pre post : List Route) (rtk : Route)
    (f : String → Outcome R) (r : R) (evs : List (Event R))
    (hperm : evs.Perm (enumerate (pre ++ rtk :: post) f))
    (hpre : ∀ rt ∈ pre, (f rt.name).failed ops = true)
    (hk : f rtk.name = Outcome.response r) (hs : ops.isSuccess r = true) :
    ∃ buf2, resolve ops proto (pre ++ rtk :: post) [] evs =
        some (DispatchOutcome.success (ops.withBackendName r rtk.name), buf2) ∧
      ∀ rt ∈ pre, lookupBuf buf2 rt.name = some (f rt.name) := by
  obtain ⟨buf2, h1, hcons, hpres⟩ :=
    resolve_perm ops proto f (pre ++ rtk :: post) evs hperm
  refine ⟨buf2, ?_, ?_⟩
  · rw [h1, resolveOffline_first_success ops proto f pre post rtk r hpre hk hs]
  · intro rt hrt
    have hscanned : rt ∈ scannedPrefix ops f (pre ++ rtk :: post) := by
      rw [scannedPrefix_append_failed ops f pre (rtk :: post) hpre]
      exact List.mem_append_left _ hrt
    have hsome := hpres rt hscanned
    cases hlk : lookupBuf buf2 rt.name with
    | none =>
      rw [hlk] at hsome
      cases hsome
    | some o =>
      rw [hcons rt.name o hlk]

theorem C4_witness :
    ∃ buf2, resolve boolOps Protocol.GRPC [route3, route2, route1] []
        [Event.arrival "route2" (Outcome.response true),
          Event.arrival "route3" Outcome.timeout,
          Event.arrival "route1" (Outcome.response true)] =
      some (DispatchOutcome.success (boolOps.withBackendName true route2.name),
        buf2) ∧
      ∀ rt ∈ [route3], lookupBuf buf2 rt.name =
        some (scenarioOutcomes rt.name) :=
  C4_no_preemption_of_pending_higher_rank boolOps Protocol.GRPC [route3]
    [route1] route2 scenarioOutcomes true
    [Event.arrival "route2" (Outcome.response true),
      Event.arrival "route3" Outcome.timeout,
      Event.arrival "route1" (Outcome.response true)]
    (by decide) (by decide) (by decide) (by decide)

/-- C5: For every dispatch call the DispatchResult is written to at most
once — it yields exactly one Response or one error before closing — and no
further Outcomes are accepted once a terminal state is reached: events
delivered after a resolving sequence leave the resolved value unchanged. -/
theorem C5_dispatch_result_written_once (ops : ResponseOps R)
    (proto : Protocol) (order : List Route) (f : String → Outcome R)
    (evs : List (Event R)) (hperm : evs.Perm (enumerate order f)) :
    ∃ res, resolve ops proto order [] evs = some res ∧
      (∀ extra, resolve ops proto order [] (evs ++ extra) = some res) ∧
      dispatchEmissions ops proto order evs = [res.1] := by
  obtain ⟨buf2, h1, _, _⟩ := resolve_perm ops proto f order evs hperm
  refine ⟨(resolveOffline ops proto order f, buf2), h1, ?_, ?_⟩
  · intro extra
    exact resolve_append ops proto evs order [] _ extra h1
  · unfold dispatchEmissions
    rw [h1]

theorem C5_witness :
    ∃ res, resolve boolOps Protocol.GRPC [route1] []
        [Event.arrival "route1" (Outcome.response true)] = some res ∧
      (∀ extra, resolve boolOps Protocol.GRPC [route1] []
        ([Event.arrival "route1" (Outcome.response true)] ++ extra) =
          some res) ∧
      dispatchEmissions boolOps Protocol.GRPC [route1]
        [Event.arrival "route1" (Outcome.response true)] = [res.1] :=
  C5_dispatch_result_written_once boolOps Protocol.GRPC [route1]
    scenarioOutcomes [Event.arrival "route1" (Outcome.response true)]
    (by decide)

/-- C6: If the caller's context is cancelled before the dispatch resolves,
the Dispatcher resolves the DispatchResult with the cancellation outcome —
distinct from the exhaustion service-unavailable outcome and from any
success — and the in-flight set signalled cancellation contains every
candidate whose Outcome never arrived. -/
theorem C6_cancellation_distinct_outcome (ops : ResponseOps R)
    (proto : Protocol) (order : List Route) (pre rest : List (Event R))
    (hpending : resolve ops proto order [] pre = none) :
    ∃ buf2, resolve ops proto order [] (pre ++ Event.cancel :: rest) =
        some (DispatchOutcome.cancelled, buf2) ∧
      (∀ p, (DispatchOutcome.cancelled : DispatchOutcome R) ≠
        DispatchOutcome.unavailable p) ∧
      (∀ resp : R, (DispatchOutcome.cancelled : DispatchOutcome R) ≠
        DispatchOutcome.success resp) ∧
      ∀ rt ∈ order, lookupBuf buf2 rt.name = none → rt ∈ inFlight order buf2 := by
  obtain ⟨buf2, hb⟩ := resolve_pending_cancel ops proto pre order [] rest hpending
  refine ⟨buf2, hb, ?_, ?_, ?_⟩
  · intro p h
    cases h
  · intro resp h
    cases h
  · intro rt hrt hl
    unfold inFlight
    rw [List.mem_filter]
    refine ⟨hrt, ?_⟩
    rw [hl]
    rfl

theorem C6_witness :
    ∃ buf2, resolve boolOps Protocol.GRPC [route3] []
        ([] ++ Event.cancel :: []) =
      some (DispatchOutcome.cancelled, buf2) ∧
      (∀ p, (DispatchOutcome.cancelled : DispatchOutcome Bool) ≠
        DispatchOutcome.unavailable p) ∧
      (∀ resp : Bool, (DispatchOutcome.cancelled : DispatchOutcome Bool) ≠
        DispatchOutcome.success resp) ∧
      ∀ rt ∈ [route3], lookupBuf buf2 rt.name = none →
        rt ∈ inFlight [route3] buf2 :=
  C6_cancellation_distinct_outcome boolOps Protocol.GRPC [route3] [] []
    (by decide)

/-- C7: A Response's success flag is derived from its status code: IsSuccess
returns true if and only if StatusCode equals the integer value of the OK
status code (0), in both gRPC Response implementations. -/
theorem C7_isSuccess_iff_statusCode_ok {Msg : Type} (r : GrpcMsg.Response Msg)
    (rb : GrpcRaw.Response) :
    (r.IsSuccess = true ↔ r.StatusCode = 0) ∧
    (rb.IsSuccess = true ↔ rb.StatusCode = 0) := by
  constructor
  · unfold GrpcMsg.Response.IsSuccess
    simp [codesOK]
  · unfold GrpcRaw.Response.IsSuccess
    simp [codesOK]

/-- C8: The two gRPC Response implementations (raw-bytes message and
protobuf message) compute IsSuccess, StatusCode, BackendName and
WithBackendName identically: for any pair of Responses with equal Status and
Metadata, all four operations agree (WithBackendName agreeing on the
resulting Metadata and Status, the fields it can affect). -/
theorem C8_implementations_agree {Msg : Type} (rp : GrpcMsg.Response Msg)
    (rb : GrpcRaw.Response) (hm : rp.Metadata = rb.Metadata)
    (hs : rp.Status = rb.Status) :
    rp.IsSuccess = rb.IsSuccess ∧ rp.StatusCode = rb.StatusCode ∧
    rp.BackendName = rb.BackendName ∧
    ∀ s, (rp.WithBackendName s).Metadata = (rb.WithBackendName s).Metadata ∧
      (rp.WithBackendName s).Status = (rb.WithBackendName s).Status := by
  refine ⟨?_, ?_, ?_, ?_⟩
  · unfold GrpcMsg.Response.IsSuccess GrpcRaw.Response.IsSuccess
      GrpcMsg.Response.StatusCode GrpcRaw.Response.StatusCode
    rw [hs]
  · unfold GrpcMsg.Response.StatusCode GrpcRaw.Response.StatusCode
    rw [hs]
  · unfold GrpcMsg.Response.BackendName GrpcRaw.Response.BackendName
    rw [hm]
  · intro s
    constructor
    · show rp.Metadata.set "backend" [s] = rb.Metadata.set "backend" [s]
      rw [hm]
    · show rp.Status = rb.Status
      exact hs

theorem C8_witness :
    msgResponse1.IsSuccess = rawResponse1.IsSuccess ∧
    msgResponse1.StatusCode = rawResponse1.StatusCode ∧
    msgResponse1.BackendName = rawResponse1.BackendName ∧
    ∀ s, (msgResponse1.WithBackendName s).Metadata =
        (rawResponse1.WithBackendName s).Metadata ∧
      (msgResponse1.WithBackendName s).Status =
        (rawResponse1.WithBackendName s).Status :=
  C8_implementations_agree msgResponse1 rawResponse1 rfl rfl

/-- C9: WithBackendName modifies only the "backend" entry of the Response's
metadata: payload, status code, success flag, the Status and Message fields,
and the metadata at every key other than "backend" are unchanged, in both
implementations.  The Go method mutates its receiver and returns it, so the
returned Response and the post-call receiver are the same tagged record. -/
theorem C9_withBackendName_frame {Msg : Type} (rp : GrpcMsg.Response Msg)
    (rb : GrpcRaw.Response) (s : String) :
    (rp.WithBackendName s).Payload = rp.Payload ∧
    (rp.WithBackendName s).StatusCode = rp.StatusCode ∧
    (rp.WithBackendName s).IsSuccess = rp.IsSuccess ∧
    (rp.WithBackendName s).Status = rp.Status ∧
    (rp.WithBackendName s).Message = rp.Message ∧
    (∀ k, k.toLower ≠ "backend" →
      (rp.WithBackendName s).Metadata.get k = rp.Metadata.get k) ∧
    (rb.WithBackendName s).Payload = rb.Payload ∧
    (rb.WithBackendName s).StatusCode = rb.StatusCode ∧
    (rb.WithBackendName s).IsSuccess = rb.IsSuccess ∧
    ∀ k, k.toLower ≠ "backend" →
      (rb.WithBackendName s).Metadata.get k = rb.Metadata.get k := by
  have hb : ("backend" : String).toLower = "backend" := by
    show String.map Char.toLower "backend" = "backend"
    rw [String.map_eq]
    decide
  have hget : ∀ (md : MD) (k : String), k.toLower ≠ "backend" →
      (md.set "backend" [s]).get k = md.get k := by
    intro md k hk
    refine MD.get_set_ne md "backend" k [s] ?_
    rw [hb]
    exact hk
  exact ⟨rfl, rfl, rfl, rfl, rfl, fun k hk => hget rp.Metadata k hk,
    rfl, rfl, rfl, fun k hk => hget rb.Metadata k hk⟩

/-- The specification's description of the backend tag rendering: the
metadata values joined with commas. -/
def commaJoined : List String → String
  | [] => ""
  | [x] => x
  | x :: y :: ys => x ++ "," ++ commaJoined (y :: ys)

theorem commaJoined_cons_append (a b : String) (l : List String) :
    commaJoined ((a ++ "," ++ b) :: l) = a ++ "," ++ commaJoined (b :: l) := by
  cases l with
  | nil => rfl
  | cons z zs =>
    show (a ++ "," ++ b) ++ "," ++ commaJoined (z :: zs) =
      a ++ "," ++ (b ++ "," ++ commaJoined (z :: zs))
    simp [String.append_assoc]

theorem stringsJoin_comma_eq_commaJoined :
    ∀ l : List String, stringsJoin l "," = commaJoined l := by
  have haux : ∀ (ys : List String) (x : String),
      stringsJoin (x :: ys) "," = commaJoined (x :: ys) := by
    intro ys
    induction ys with
    | nil =>
      intro x
      rfl
    | cons y ys ih =>
      intro x
      have h1 : stringsJoin (x :: y :: ys) "," =
          stringsJoin ((x ++ "," ++ y) :: ys) "," := rfl
      rw [h1, ih (x ++ "," ++ y), commaJoined_cons_append]
      rfl
  intro l
  cases l with
  | nil => rfl
  | cons x xs => exact haux xs x

/-- C10: For every gRPC Response whose metadata holds no value under the
"backend" key, BackendName returns the empty string — so a never-tagged
Response shows an empty backend tag at the public interface, violating the
non-empty-tag invariant there — and when the key holds several values,
BackendName returns them joined with commas (both implementations). -/
theorem C10_backendName_empty_or_joined {Msg : Type}
    (r : GrpcMsg.Response Msg) (rb : GrpcRaw.Response) :
    (r.Metadata.get "backend" = [] → r.BackendName = "") ∧
    r.BackendName = commaJoined (r.Metadata.get "backend") ∧
    (rb.Metadata.get "backend" = [] → rb.BackendName = "") ∧
    rb.BackendName = commaJoined (rb.Metadata.get "backend") := by
  refine ⟨?_, ?_, ?_, ?_⟩
  · intro h
    unfold GrpcMsg.Response.BackendName
    rw [h]
    rfl
  · unfold GrpcMsg.Response.BackendName
    exact stringsJoin_comma_eq_commaJoined (r.Metadata.get "backend")
  · intro h
    unfold GrpcRaw.Response.BackendName
    rw [h]
    rfl
  · unfold GrpcRaw.Response.BackendName
    exact stringsJoin_comma_eq_commaJoined (rb.Metadata.get "backend")
